import Mathlib

/-!
Verification development for the WorkingBitsSystems/SmartPointers repository.

The development shallowly embeds the reference-counting core of the library:

* `wbs.UP` models `UP<TYPESP>` restricted to what `SP.h` uses of it: an owning
  slot `m_ptr` that is either empty (`nullptr`) or holds the address of the
  managed payload (addresses are modelled as `Nat`).
* `wbs.InternalObject` models `SP<TYPESP>::InternalObject` from `src/include/SP.h`:
  the payload slot `m_ptr`, the strong count `m_refCount` and the weak count
  `m_weakRefCount` (both `std::uint64_t`, so arithmetic is taken mod `2^64`).
  `AddRef`, `DecRef`, `AddWeakRef`, `DecWeakRef` follow the source line by line;
  each returns the surviving state (`none` means `delete this` ran), the number
  of payload teardowns (`UP::Delete` firing on a non-null slot) performed during
  the call, and whether the block storage was reclaimed.
* `wbs.runOps` executes a sequence of count mutations against one block;
  `wbs.validFrom` states that every mutation in the sequence is issued by a live
  handle (a decrement only while the corresponding count is positive, an
  increment only from a live reference, and no operation after the block has
  destroyed itself), with the counts staying below `2^64`.
* Handle-level operations of `SP<TYPESP>` (copy construction, assignment, move
  assignment, `Delete`, `operator->`, `UnsafeAccess`, the comparison operators)
  are embedded over a heap of internal objects addressed by `BlockId`;
  `WP<TYPEWP>::GetSP` together with the private `SP(InternalObject*)`
  constructor is embedded as `wbs.WP_GetSP`.
* `wbs.MemCache` models `MemCache<T>` from `src/include/MemCache.h` with its
  static state `sm_inUse`/`sm_cache` (the vector back is the list head) and the
  two allocation operators.  C++ `int` division truncates toward zero, hence
  `Int.tdiv`.
-/

namespace wbs

/-- `2^64`, the modulus of `std::uint64_t` arithmetic. -/
def UINT64_MOD : Nat := 18446744073709551616

/-- `++c` on a `std::uint64_t` counter `c`. -/
def add64 (n : Nat) : Nat := (n + 1) % UINT64_MOD

/-- `--c` on a `std::uint64_t` counter `c` (wraps on 0). -/
def sub64 (n : Nat) : Nat := (n + (UINT64_MOD - 1)) % UINT64_MOD

/-- The `UP<TYPESP>` slot embedded in an `InternalObject` (`UP.h`): an owning
pointer that is either `nullptr` (`none`) or the address of the payload. -/
structure UP where
  m_ptr : Option Nat
  deriving DecidableEq

/-- `UP::Delete`: delete the pointee if the pointer is set, and clear it.
The returned flag records whether a payload teardown actually happened. -/
def UP.Delete (u : UP) : UP × Bool :=
  match u.m_ptr with
  | none => (u, false)
  | some _ => (⟨none⟩, true)

/-- `UP::UnsafeAccess`: the raw pointer. -/
def UP.UnsafeAccess (u : UP) : Option Nat := u.m_ptr

/-- `SP<TYPESP>::InternalObject` (`SP.h`, lines 324-449). -/
structure InternalObject where
  m_ptr : UP
  m_refCount : Nat
  m_weakRefCount : Nat
  deriving DecidableEq

/-- The `InternalObject(TYPESP* p)` constructor: one strong reference (the
creating `SP`), no weak references, slot holding `p`. -/
def InternalObject.create (p : Nat) : InternalObject := ⟨⟨some p⟩, 1, 0⟩

/-- `InternalObject::GetPtr`: `m_ptr.UnsafeAccess()`. -/
def InternalObject.GetPtr (o : InternalObject) : Option Nat := o.m_ptr.UnsafeAccess

/-- Result of one count mutation on an `InternalObject`: the surviving state
(`none` after `delete this`), the number of payload teardowns performed, and
whether the block storage was reclaimed during the call. -/
structure StepResult where
  state : Option InternalObject
  teardowns : Nat
  reclaimed : Bool
  deriving DecidableEq

/-- `InternalObject::AddRef`: `++m_refCount` under the lock. -/
def InternalObject.AddRef (o : InternalObject) : StepResult :=
  ⟨some { o with m_refCount := add64 o.m_refCount }, 0, false⟩

/-- `InternalObject::DecRef` (`SP.h`, lines 348-379): `--m_refCount`; if it is
now 0, `m_ptr.Delete()`, and additionally `delete this` when the weak count is
also 0 (the `~InternalObject` destructor runs `m_ptr.Delete()` once more on the
already-cleared slot). -/
def InternalObject.DecRef (o : InternalObject) : StepResult :=
  let rc := sub64 o.m_refCount
  if rc = 0 then
    let d := o.m_ptr.Delete
    if o.m_weakRefCount = 0 then
      let d2 := d.1.Delete
      ⟨none, d.2.toNat + d2.2.toNat, true⟩
    else
      ⟨some { o with m_ptr := d.1, m_refCount := rc }, d.2.toNat, false⟩
  else
    ⟨some { o with m_refCount := rc }, 0, false⟩

/-- `InternalObject::AddWeakRef`: `++m_weakRefCount` under the lock. -/
def InternalObject.AddWeakRef (o : InternalObject) : StepResult :=
  ⟨some { o with m_weakRefCount := add64 o.m_weakRefCount }, 0, false⟩

/-- `InternalObject::DecWeakRef` (`SP.h`, lines 393-414): `--m_weakRefCount`;
`delete this` when both counts are now 0 (the destructor runs `m_ptr.Delete()`,
which is a no-op whenever the payload was already released). -/
def InternalObject.DecWeakRef (o : InternalObject) : StepResult :=
  let wc := sub64 o.m_weakRefCount
  if wc = 0 ∧ o.m_refCount = 0 then
    let d := o.m_ptr.Delete
    ⟨none, d.2.toNat, true⟩
  else
    ⟨some { o with m_weakRefCount := wc }, 0, false⟩

/-- The four count mutations of a ControlBlock. -/
inductive RefOp where
  | addRef
  | decRef
  | addWeakRef
  | decWeakRef
  deriving DecidableEq

/-- Apply one mutation to a block state.  A mutation against an already
reclaimed block (`none`) is undefined behaviour in the source and never occurs
in a valid sequence; it is modelled as a no-op here only to keep the function
total. -/
def stepOp (s : Option InternalObject) (op : RefOp) : StepResult :=
  match s with
  | none => ⟨none, 0, false⟩
  | some o =>
    match op with
    | .addRef => o.AddRef
    | .decRef => o.DecRef
    | .addWeakRef => o.AddWeakRef
    | .decWeakRef => o.DecWeakRef

/-- Accumulated result of a sequence of mutations: final block state, total
number of payload teardowns, total number of block storage reclamations. -/
structure RunResult where
  state : Option InternalObject
  teardowns : Nat
  reclaims : Nat
  deriving DecidableEq

/-- Run a sequence of count mutations against one block. -/
def runOps (s : Option InternalObject) : List RefOp → RunResult
  | [] => ⟨s, 0, 0⟩
  | op :: rest =>
    let r := stepOp s op
    let rr := runOps r.state rest
    ⟨rr.state, r.teardowns + rr.teardowns, r.reclaimed.toNat + rr.reclaims⟩

/-- A single mutation is admissible in the current state: decrements are issued
only by a handle that holds a reference (so the corresponding count is
positive), increments only from a live reference (`AddRef` from a live `SP`,
`AddWeakRef` from a live `SP` or `WP`), counters do not overflow `2^64`, and
nothing touches a block whose storage was already reclaimed. -/
def okOp (s : Option InternalObject) (op : RefOp) : Bool :=
  match s with
  | none => false
  | some o =>
    match op with
    | .addRef => decide (1 ≤ o.m_refCount ∧ o.m_refCount + 1 < UINT64_MOD)
    | .decRef => decide (1 ≤ o.m_refCount)
    | .addWeakRef =>
        decide ((1 ≤ o.m_refCount ∨ 1 ≤ o.m_weakRefCount) ∧
                o.m_weakRefCount + 1 < UINT64_MOD)
    | .decWeakRef => decide (1 ≤ o.m_weakRefCount)

/-- Every mutation of the sequence is admissible when it is reached. -/
def validFrom (s : Option InternalObject) : List RefOp → Bool
  | [] => true
  | op :: rest => okOp s op && validFrom (stepOp s op).state rest

/-- The strong count of a block state (0 once the block is gone). -/
def strongAt : Option InternalObject → Nat
  | none => 0
  | some o => o.m_refCount

/-- The weak count of a block state (0 once the block is gone). -/
def weakAt : Option InternalObject → Nat
  | none => 0
  | some o => o.m_weakRefCount

/-- Identity of an `InternalObject` allocation. -/
abbrev BlockId := Nat

/-- The heap of internal objects: `none` at an id means that block's storage
has been reclaimed (or was never allocated). -/
abbrev Heap := BlockId → Option InternalObject

/-- An `SP<TYPESP>` handle: `m_internalObject` is the (possibly null) pointer
to the shared `InternalObject`. -/
structure SPH where
  m_internalObject : Option BlockId
  deriving DecidableEq

/-- Point-update of the heap. -/
def updHeap (h : Heap) (i : BlockId) (v : Option InternalObject) : Heap :=
  fun j => if j = i then v else h j

/-- `m_internalObject->AddRef()` through the heap. -/
def heapAddRef (h : Heap) (i : BlockId) : Heap :=
  match h i with
  | none => h
  | some o => updHeap h i o.AddRef.state

/-- `m_internalObject->DecRef()` through the heap; also returns the number of
payload teardowns the call performed. -/
def heapDecRef (h : Heap) (i : BlockId) : Heap × Nat :=
  match h i with
  | none => (h, 0)
  | some o => (updHeap h i o.DecRef.state, o.DecRef.teardowns)

/-- `SP::IsNull`. -/
def SPH.IsNull (sp : SPH) : Bool := sp.m_internalObject.isNone

/-- `SP::UnsafeAccess` (`SP.h`, lines 270-281): `nullptr` for an empty handle,
otherwise `m_internalObject->GetPtr()`. -/
def SPH.UnsafeAccess (sp : SPH) (h : Heap) : Option Nat :=
  match sp.m_internalObject with
  | none => none
  | some i =>
    match h i with
    | none => none
    | some o => o.GetPtr

/-- `SP::operator->` (`SP.h`, lines 181-191): `nullptr` for an empty handle,
otherwise `m_internalObject->GetPtr()`. -/
def SPH.arrow (sp : SPH) (h : Heap) : Option Nat :=
  match sp.m_internalObject with
  | none => none
  | some i =>
    match h i with
    | none => none
    | some o => o.GetPtr

/-- The numeric value of a `TYPESP*`: live payloads sit at their (positive)
address, `nullptr` is address 0.  The comparison operators of `SP` compare
these raw addresses. -/
def addrOf : Option Nat → Nat
  | none => 0
  | some a => a

/-- `SP::operator==`: `UnsafeAccess() == other.UnsafeAccess()`. -/
def SPH.opEq (a b : SPH) (h : Heap) : Bool :=
  decide (addrOf (a.UnsafeAccess h) = addrOf (b.UnsafeAccess h))

/-- `SP::operator<=` on the payload addresses. -/
def SPH.opLe (a b : SPH) (h : Heap) : Bool :=
  decide (addrOf (a.UnsafeAccess h) ≤ addrOf (b.UnsafeAccess h))

/-- `SP::operator>=` on the payload addresses. -/
def SPH.opGe (a b : SPH) (h : Heap) : Bool :=
  decide (addrOf (b.UnsafeAccess h) ≤ addrOf (a.UnsafeAccess h))

/-- The `SP(const SP&)` copy constructor (`SP.h`, lines 87-94): share the
internal object and `AddRef` it when non-null.  Returns the new handle and the
updated heap. -/
def SPH.copy (sp : SPH) (h : Heap) : SPH × Heap :=
  match sp.m_internalObject with
  | none => (⟨none⟩, h)
  | some i => (⟨some i⟩, heapAddRef h i)

/-- `SP::Delete` (`SP.h`, lines 289-296): `DecRef` the referenced block if any,
then clear the handle.  Returns the handle, the heap, and the number of payload
teardowns performed. -/
def SPH.Delete (sp : SPH) (h : Heap) : SPH × Heap × Nat :=
  match sp.m_internalObject with
  | none => (sp, h, 0)
  | some i =>
    let r := heapDecRef h i
    (⟨none⟩, r.1, r.2)

/-- The copy assignment `SP::operator=(const SP&)` (`SP.h`, lines 119-141).
`sameObject` models the C++ address test `&other == this`; it can be true only
when target and source are the very same handle object (hence equal values).
The body is skipped when the source is the same object or references the same
internal object; otherwise: `DecRef` the old reference, take the new one,
`AddRef` it.  Returns the new target value, the heap, and the teardown count. -/
def SPH.assignCopy (tgt src : SPH) (sameObject : Bool) (h : Heap) :
    SPH × Heap × Nat :=
  if sameObject then (tgt, h, 0)
  else if src.m_internalObject = tgt.m_internalObject then (tgt, h, 0)
  else
    let r : Heap × Nat :=
      match tgt.m_internalObject with
      | none => (h, 0)
      | some i => heapDecRef h i
    let h2 : Heap :=
      match src.m_internalObject with
      | none => r.1
      | some j => heapAddRef r.1 j
    (⟨src.m_internalObject⟩, h2, r.2)

/-- The move assignment `SP::operator=(SP&&)` (`SP.h`, lines 151-172).  The
guard tests only `&other != this` (unlike the copy assignment it does NOT skip
a distinct source referencing the same internal object): otherwise `DecRef` the
old reference, take the source's pointer, clear the source.  Returns the new
target and source values, the heap, and the teardown count. -/
def SPH.assignMove (tgt src : SPH) (sameObject : Bool) (h : Heap) :
    SPH × SPH × Heap × Nat :=
  if sameObject then (tgt, src, h, 0)
  else
    let r : Heap × Nat :=
      match tgt.m_internalObject with
      | none => (h, 0)
      | some i => heapDecRef h i
    (⟨src.m_internalObject⟩, ⟨none⟩, r.1, r.2)

/-- The private `SP(InternalObject*)` constructor used by weak-pointer
promotion (`SP.h`, lines 460-476): take the block and `AddRef` it only when the
pointer is non-null AND `GetPtr()` is non-null; otherwise the new handle is
empty.  The argument is the state of the block the `WP` references (`none` for
a null `WP`); the result is the updated block state and whether the produced
`SP` is non-empty. -/
def SP_fromInternal (s : Option InternalObject) : Option InternalObject × Bool :=
  match s with
  | none => (none, false)
  | some o =>
    match o.GetPtr with
    | none => (some o, false)
    | some _ => (o.AddRef.state, true)

/-- `WP::GetSP` (`WP.h`, lines 202-205): construct an `SP` from the weak
pointer's `m_internalObject` via the private constructor. -/
def WP_GetSP (s : Option InternalObject) : Option InternalObject × Bool :=
  SP_fromInternal s

/-- Static state of `MemCache<T>` (`MemCache.h`): the live-allocation counter
`sm_inUse` (a C++ `int`) and the pool `sm_cache` of recycled raw blocks.  The
vector's back, where `push_back`/`pop_back`/`back` operate, is the head of the
list, so the head is always the most recently pushed block. -/
structure MemCache where
  sm_inUse : Int
  sm_cache : List Nat
  deriving DecidableEq

/-- `MemCache<T>::CACHE_RATE`. -/
def CACHE_RATE : Int := 50

/-- The eviction loop of `operator delete`:
`while ((0 != size) && (size > targetCacheSize)) { free back; pop_back; }`. -/
def cacheShrink : List Nat → Int → List Nat
  | [], _ => []
  | m :: rest, target =>
    if target < ((m :: rest).length : Int) then cacheShrink rest target
    else m :: rest

/-- `MemCache<T>::operator new` (`MemCache.h`, lines 50-70): pop the back of
the pool when non-empty, otherwise allocate a fresh block of exactly `size`
bytes; `++sm_inUse` either way.  `fresh` is the address the system allocator
would return.  Result: new state, the returned block, and `some size` when a
fresh allocation of `size` bytes happened (`none` when a pooled block was
reused unchanged). -/
def MemCache.opNew (s : MemCache) (size : Nat) (fresh : Nat) :
    MemCache × Nat × Option Nat :=
  match s.sm_cache with
  | b :: rest => (⟨s.sm_inUse + 1, rest⟩, b, none)
  | [] => (⟨s.sm_inUse + 1, []⟩, fresh, some size)

/-- `MemCache<T>::operator delete` (`MemCache.h`, lines 78-102): push the block
onto the pool, `--sm_inUse`, compute `targetCacheSize = sm_inUse * CACHE_RATE
/ 100` (C++ `int` division truncates toward zero, hence `Int.tdiv`), then free
back entries while the pool is larger than the target. -/
def MemCache.opDelete (s : MemCache) (mem : Nat) : MemCache :=
  let cache1 := mem :: s.sm_cache
  let inUse1 := s.sm_inUse - 1
  let target := Int.tdiv (inUse1 * CACHE_RATE) 100
  ⟨inUse1, cacheShrink cache1 target⟩

/-- The process-start state of a `MemCache<T>`: nothing in use, empty pool. -/
def emptyCache : MemCache := ⟨0, []⟩

/-- Acquire `n` blocks in a row (scenario C step 1; the byte size of the
consumer type and the fresh addresses do not affect the state). -/
def acquireRep : Nat → MemCache → MemCache
  | 0, s => s
  | n + 1, s => acquireRep n (MemCache.opNew s 16 n).1

/-- Release `n` blocks one at a time (scenario C step 2). -/
def releaseRep : Nat → MemCache → MemCache
  | 0, s => s
  | n + 1, s => releaseRep n (MemCache.opDelete s n)

/-- Check the pool-ceiling invariant `pool.size() ≤ sm_inUse * CACHE_RATE /
100` after every individual release of `n` successive releases. -/
def releaseRepInv : Nat → MemCache → Bool
  | 0, _ => true
  | n + 1, s =>
    let s1 := MemCache.opDelete s n
    (decide ((s1.sm_cache.length : Int) ≤ Int.tdiv (s1.sm_inUse * CACHE_RATE) 100))
      && releaseRepInv n s1

/-- Acquire one block and immediately release that block, `n` times
(scenario D). -/
def cycleRep : Nat → MemCache → MemCache
  | 0, s => s
  | n + 1, s =>
    let a := MemCache.opNew s 16 n
    cycleRep n (MemCache.opDelete a.1 a.2.1)

/-- A heap with exactly one live block at id 0 (used to instantiate the
handle-level theorems on concrete inputs). -/
def singletonHeap (o : InternalObject) : Heap :=
  fun j => if j = 0 then some o else none

/-- Well-formedness of a live block state, maintained by every valid run: the
payload slot is occupied exactly while the strong count is positive, both
counters fit in a `std::uint64_t`, and at least one handle still references the
block (otherwise its storage would already have been reclaimed). -/
def GoodO (o : InternalObject) : Prop :=
  (o.m_ptr.m_ptr.isSome ↔ 1 ≤ o.m_refCount) ∧
  o.m_refCount < UINT64_MOD ∧
  o.m_weakRefCount < UINT64_MOD ∧
  1 ≤ o.m_refCount + o.m_weakRefCount

theorem add64_eq (n : Nat) (h : n + 1 < UINT64_MOD) : add64 n = n + 1 := by
  unfold add64 UINT64_MOD at *
  omega

theorem sub64_eq (n : Nat) (h1 : 1 ≤ n) (h2 : n < UINT64_MOD) :
    sub64 n = n - 1 := by
  unfold sub64 UINT64_MOD at *
  omega

theorem UP_Delete_some (u : UP) (a : Nat) (h : u.m_ptr = some a) :
    u.Delete = (⟨none⟩, true) := by
  simp [UP.Delete, h]

theorem UP_Delete_none (u : UP) (h : u.m_ptr = none) :
    u.Delete = (u, false) := by
  simp [UP.Delete, h]

theorem AddRef_eq (o : InternalObject) (hb : o.m_refCount + 1 < UINT64_MOD) :
    o.AddRef = ⟨some { o with m_refCount := o.m_refCount + 1 }, 0, false⟩ := by
  simp [InternalObject.AddRef, add64_eq _ hb]

theorem AddWeakRef_eq (o : InternalObject)
    (hb : o.m_weakRefCount + 1 < UINT64_MOD) :
    o.AddWeakRef =
      ⟨some { o with m_weakRefCount := o.m_weakRefCount + 1 }, 0, false⟩ := by
  simp [InternalObject.AddWeakRef, add64_eq _ hb]

theorem DecRef_big (o : InternalObject) (h2 : 2 ≤ o.m_refCount)
    (hb : o.m_refCount < UINT64_MOD) :
    o.DecRef = ⟨some { o with m_refCount := o.m_refCount - 1 }, 0, false⟩ := by
  have hs : sub64 o.m_refCount = o.m_refCount - 1 := sub64_eq _ (by omega) hb
  simp only [InternalObject.DecRef, hs]
  rw [if_neg (by omega)]

theorem DecRef_last_weakzero (o : InternalObject) (a : Nat)
    (h1 : o.m_refCount = 1) (hp : o.m_ptr.m_ptr = some a)
    (hw : o.m_weakRefCount = 0) :
    o.DecRef = ⟨none, 1, true⟩ := by
  have hs : sub64 o.m_refCount = 0 := by rw [h1]; decide
  simp [InternalObject.DecRef, hs, hw, UP.Delete, hp]

theorem DecRef_last_weakpos (o : InternalObject) (a : Nat)
    (h1 : o.m_refCount = 1) (hp : o.m_ptr.m_ptr = some a)
    (hw : 1 ≤ o.m_weakRefCount) :
    o.DecRef = ⟨some { o with m_ptr := ⟨none⟩, m_refCount := 0 }, 1, false⟩ := by
  have hs : sub64 o.m_refCount = 0 := by rw [h1]; decide
  have hw' : ¬(o.m_weakRefCount = 0) := by omega
  simp [InternalObject.DecRef, hs, hw', UP.Delete, hp]

theorem DecWeakRef_last (o : InternalObject) (h1 : o.m_weakRefCount = 1)
    (h0 : o.m_refCount = 0) (hp : o.m_ptr.m_ptr = none) :
    o.DecWeakRef = ⟨none, 0, true⟩ := by
  have hs : sub64 o.m_weakRefCount = 0 := by rw [h1]; decide
  simp [InternalObject.DecWeakRef, hs, h0, UP.Delete, hp]

theorem DecWeakRef_live (o : InternalObject) (h1 : 1 ≤ o.m_weakRefCount)
    (hb : o.m_weakRefCount < UINT64_MOD)
    (hNot : ¬(o.m_weakRefCount - 1 = 0 ∧ o.m_refCount = 0)) :
    o.DecWeakRef =
      ⟨some { o with m_weakRefCount := o.m_weakRefCount - 1 }, 0, false⟩ := by
  have hs : sub64 o.m_weakRefCount = o.m_weakRefCount - 1 := sub64_eq _ h1 hb
  simp only [InternalObject.DecWeakRef, hs]
  rw [if_neg hNot]

theorem goodO_create (p : Nat) : GoodO (InternalObject.create p) := by
  refine ⟨by simp [InternalObject.create], ?_, ?_, ?_⟩ <;>
    simp [InternalObject.create, UINT64_MOD]

theorem validFrom_none_eq (l : List RefOp) (h : validFrom none l = true) :
    l = [] := by
  cases l with
  | nil => rfl
  | cons op rest => simp [validFrom, okOp] at h

theorem count_cons_refop (a b : RefOp) (l : List RefOp) :
    (b :: l).count a = l.count a + (if a = b then 1 else 0) := by
  rcases eq_or_ne a b with rfl | h
  · simp [List.count_cons]
  · simp [List.count_cons, h, h.symm]

theorem goodO_mk (mp : UP) (S W : Nat) (h1 : mp.m_ptr.isSome ↔ 1 ≤ S)
    (h2 : S < UINT64_MOD) (h3 : W < UINT64_MOD) (h4 : 1 ≤ S + W) :
    GoodO ⟨mp, S, W⟩ :=
  ⟨h1, h2, h3, h4⟩

theorem runOps_append (s : Option InternalObject) (xs ys : List RefOp) :
    runOps s (xs ++ ys) =
      ⟨(runOps (runOps s xs).state ys).state,
       (runOps s xs).teardowns + (runOps (runOps s xs).state ys).teardowns,
       (runOps s xs).reclaims + (runOps (runOps s xs).state ys).reclaims⟩ := by
  induction xs generalizing s with
  | nil => simp [runOps]
  | cons op rest ih => simp [runOps, ih, Nat.add_assoc]

theorem validFrom_append (s : Option InternalObject) (xs ys : List RefOp) :
    validFrom s (xs ++ ys) =
      (validFrom s xs && validFrom (runOps s xs).state ys) := by
  induction xs generalizing s with
  | nil => simp [validFrom, runOps]
  | cons op rest ih => simp [validFrom, runOps, ih, Bool.and_assoc]

/-- Master invariant for runs against one ControlBlock: a valid run either
ends with the block storage reclaimed — exactly one reclamation, a payload
teardown exactly when the run started with a positive strong count, and both
final counts accounted for by the operation counts — or ends on a live
well-formed block with no reclamation, a teardown exactly when the strong
count reached 0 during the run, a strong count that can never rebound from 0,
and both counts accounted for by the operation counts. -/
theorem runOps_spec (ops : List RefOp) :
    ∀ o : InternalObject, GoodO o → validFrom (some o) ops = true →
    (((runOps (some o) ops).state = none ∧
      (runOps (some o) ops).reclaims = 1 ∧
      (runOps (some o) ops).teardowns = (if 1 ≤ o.m_refCount then 1 else 0) ∧
      ops.count RefOp.decRef = ops.count RefOp.addRef + o.m_refCount ∧
      ops.count RefOp.decWeakRef =
        ops.count RefOp.addWeakRef + o.m_weakRefCount) ∨
     (∃ o2, (runOps (some o) ops).state = some o2 ∧ GoodO o2 ∧
      (runOps (some o) ops).reclaims = 0 ∧
      (runOps (some o) ops).teardowns =
        (if 1 ≤ o.m_refCount ∧ o2.m_refCount = 0 then 1 else 0) ∧
      (1 ≤ o2.m_refCount → 1 ≤ o.m_refCount) ∧
      o2.m_refCount + ops.count RefOp.decRef =
        o.m_refCount + ops.count RefOp.addRef ∧
      o2.m_weakRefCount + ops.count RefOp.decWeakRef =
        o.m_weakRefCount + ops.count RefOp.addWeakRef)) := by
  induction ops with
  | nil =>
    intro o hG _
    right
    refine ⟨o, rfl, hG, rfl, ?_, fun hx => hx, by simp [runOps], by simp [runOps]⟩
    have hc : ¬(1 ≤ o.m_refCount ∧ o.m_refCount = 0) := by omega
    simp [runOps, hc]
  | cons op rest ih =>
    intro o hG hV
    simp only [validFrom, Bool.and_eq_true] at hV
    obtain ⟨hok, hrest⟩ := hV
    obtain ⟨hio, hbS, hbW, hsum⟩ := hG
    cases op with
    | addRef =>
      have hok' : 1 ≤ o.m_refCount ∧ o.m_refCount + 1 < UINT64_MOD := by
        simpa [okOp] using hok
      have hstep : stepOp (some o) RefOp.addRef =
          ⟨some ⟨o.m_ptr, o.m_refCount + 1, o.m_weakRefCount⟩, 0, false⟩ := by
        simp [stepOp, AddRef_eq o hok'.2]
      rw [hstep] at hrest
      have hG1 : GoodO ⟨o.m_ptr, o.m_refCount + 1, o.m_weakRefCount⟩ :=
        goodO_mk _ _ _ ⟨fun _ => by omega, fun _ => hio.mpr hok'.1⟩ hok'.2 hbW
          (by omega)
      have hrunS : (runOps (some o) (RefOp.addRef :: rest)).state =
          (runOps (some ⟨o.m_ptr, o.m_refCount + 1, o.m_weakRefCount⟩) rest).state := by
        simp [runOps, hstep]
      have hrunT : (runOps (some o) (RefOp.addRef :: rest)).teardowns =
          (runOps (some ⟨o.m_ptr, o.m_refCount + 1, o.m_weakRefCount⟩) rest).teardowns := by
        simp [runOps, hstep]
      have hrunR : (runOps (some o) (RefOp.addRef :: rest)).reclaims =
          (runOps (some ⟨o.m_ptr, o.m_refCount + 1, o.m_weakRefCount⟩) rest).reclaims := by
        simp [runOps, hstep]
      rcases ih _ hG1 hrest with ⟨h1, h2, h3, h4, h5⟩ | ⟨o2, h1, h2, h3, h4, h5, h6, h7⟩
      · have h3' : (runOps (some ⟨o.m_ptr, o.m_refCount + 1, o.m_weakRefCount⟩)
            rest).teardowns = (if 1 ≤ o.m_refCount + 1 then 1 else 0) := h3
        have h4' : rest.count RefOp.decRef =
            rest.count RefOp.addRef + (o.m_refCount + 1) := h4
        have h5' : rest.count RefOp.decWeakRef =
            rest.count RefOp.addWeakRef + o.m_weakRefCount := h5
        left
        refine ⟨by rw [hrunS]; exact h1, by rw [hrunR]; exact h2, ?_, ?_, ?_⟩
        · rw [hrunT, h3']
          have e1 : (1 : Nat) ≤ o.m_refCount + 1 := by omega
          simp [e1, hok'.1]
        · simp only [count_cons_refop]
          simp
          omega
        · simp only [count_cons_refop]
          simp
          omega
      · have h3' : (runOps (some ⟨o.m_ptr, o.m_refCount + 1, o.m_weakRefCount⟩)
            rest).reclaims = 0 := h3
        have h4' : (runOps (some ⟨o.m_ptr, o.m_refCount + 1, o.m_weakRefCount⟩)
            rest).teardowns =
            (if 1 ≤ o.m_refCount + 1 ∧ o2.m_refCount = 0 then 1 else 0) := h4
        have h6' : o2.m_refCount + rest.count RefOp.decRef =
            (o.m_refCount + 1) + rest.count RefOp.addRef := h6
        have h7' : o2.m_weakRefCount + rest.count RefOp.decWeakRef =
            o.m_weakRefCount + rest.count RefOp.addWeakRef := h7
        right
        refine ⟨o2, by rw [hrunS]; exact h1, h2, by rw [hrunR]; exact h3', ?_,
          fun _ => hok'.1, ?_, ?_⟩
        · rw [hrunT, h4']
          have e1 : (1 : Nat) ≤ o.m_refCount + 1 := by omega
          by_cases hz : o2.m_refCount = 0 <;> simp [hz, e1, hok'.1]
        · simp only [count_cons_refop]
          simp
          omega
        · simp only [count_cons_refop]
          simp
          omega
    | decRef =>
      have hok' : 1 ≤ o.m_refCount := by simpa [okOp] using hok
      rcases Nat.lt_or_ge o.m_refCount 2 with hS1 | hS2
      · -- the strong count is exactly 1: the payload is torn down now
        have hS : o.m_refCount = 1 := by omega
        obtain ⟨a, ha⟩ := Option.isSome_iff_exists.mp (hio.mpr hok')
        rcases Nat.eq_zero_or_pos o.m_weakRefCount with hW0 | hW1
        · -- no weak references: the block deletes itself, the run must stop
          have hstep : stepOp (some o) RefOp.decRef = ⟨none, 1, true⟩ := by
            simp [stepOp, DecRef_last_weakzero o a hS ha hW0]
          rw [hstep] at hrest
          have hrest' : rest = [] := validFrom_none_eq rest hrest
          subst hrest'
          left
          refine ⟨?_, ?_, ?_, ?_, ?_⟩
          · simp [runOps, hstep]
          · simp [runOps, hstep]
          · simp [runOps, hstep, hS]
          · simp [count_cons_refop, hS]
          · simp [count_cons_refop, hW0]
        · -- weak references remain: the block survives with strong count 0
          have hstep : stepOp (some o) RefOp.decRef =
              ⟨some ⟨⟨none⟩, 0, o.m_weakRefCount⟩, 1, false⟩ := by
            simp [stepOp, DecRef_last_weakpos o a hS ha hW1]
          rw [hstep] at hrest
          have hG1 : GoodO ⟨⟨none⟩, 0, o.m_weakRefCount⟩ :=
            goodO_mk _ _ _ (by simp) (by unfold UINT64_MOD; omega) hbW (by omega)
          have hrunS : (runOps (some o) (RefOp.decRef :: rest)).state =
              (runOps (some ⟨⟨none⟩, 0, o.m_weakRefCount⟩) rest).state := by
            simp [runOps, hstep]
          have hrunT : (runOps (some o) (RefOp.decRef :: rest)).teardowns =
              1 + (runOps (some ⟨⟨none⟩, 0, o.m_weakRefCount⟩) rest).teardowns := by
            simp [runOps, hstep]
          have hrunR : (runOps (some o) (RefOp.decRef :: rest)).reclaims =
              (runOps (some ⟨⟨none⟩, 0, o.m_weakRefCount⟩) rest).reclaims := by
            simp [runOps, hstep]
          rcases ih _ hG1 hrest with ⟨h1, h2, h3, h4, h5⟩ | ⟨o2, h1, h2, h3, h4, h5, h6, h7⟩
          · have h3' : (runOps (some ⟨⟨none⟩, 0, o.m_weakRefCount⟩)
                rest).teardowns = (if (1 : Nat) ≤ 0 then 1 else 0) := h3
            have h4' : rest.count RefOp.decRef = rest.count RefOp.addRef + 0 := h4
            have h5' : rest.count RefOp.decWeakRef =
                rest.count RefOp.addWeakRef + o.m_weakRefCount := h5
            left
            refine ⟨by rw [hrunS]; exact h1, by rw [hrunR]; exact h2, ?_, ?_, ?_⟩
            · rw [hrunT, h3']
              simp [hS]
            · simp only [count_cons_refop]
              simp
              omega
            · simp only [count_cons_refop]
              simp
              omega
          · have h3' : (runOps (some ⟨⟨none⟩, 0, o.m_weakRefCount⟩)
                rest).reclaims = 0 := h3
            have h4' : (runOps (some ⟨⟨none⟩, 0, o.m_weakRefCount⟩)
                rest).teardowns =
                (if (1 : Nat) ≤ 0 ∧ o2.m_refCount = 0 then 1 else 0) := h4
            have h5' : 1 ≤ o2.m_refCount → (1 : Nat) ≤ 0 := h5
            have h6' : o2.m_refCount + rest.count RefOp.decRef =
                0 + rest.count RefOp.addRef := h6
            have h7' : o2.m_weakRefCount + rest.count RefOp.decWeakRef =
                o.m_weakRefCount + rest.count RefOp.addWeakRef := h7
            have ho2 : o2.m_refCount = 0 := by
              by_contra hcon
              have := h5' (by omega)
              omega
            right
            refine ⟨o2, by rw [hrunS]; exact h1, h2, by rw [hrunR]; exact h3', ?_,
              fun _ => hok', ?_, ?_⟩
            · rw [hrunT, h4']
              simp [hS, ho2]
            · simp only [count_cons_refop]
              simp
              omega
            · simp only [count_cons_refop]
              simp
              omega
      · -- strong count at least 2: a plain decrement
        have hstep : stepOp (some o) RefOp.decRef =
            ⟨some ⟨o.m_ptr, o.m_refCount - 1, o.m_weakRefCount⟩, 0, false⟩ := by
          simp [stepOp, DecRef_big o hS2 hbS]
        rw [hstep] at hrest
        have hG1 : GoodO ⟨o.m_ptr, o.m_refCount - 1, o.m_weakRefCount⟩ :=
          goodO_mk _ _ _ ⟨fun _ => by omega, fun _ => hio.mpr (by omega)⟩
            (by omega) hbW (by omega)
        have hrunS : (runOps (some o) (RefOp.decRef :: rest)).state =
            (runOps (some ⟨o.m_ptr, o.m_refCount - 1, o.m_weakRefCount⟩) rest).state := by
          simp [runOps, hstep]
        have hrunT : (runOps (some o) (RefOp.decRef :: rest)).teardowns =
            (runOps (some ⟨o.m_ptr, o.m_refCount - 1, o.m_weakRefCount⟩) rest).teardowns := by
          simp [runOps, hstep]
        have hrunR : (runOps (some o) (RefOp.decRef :: rest)).reclaims =
            (runOps (some ⟨o.m_ptr, o.m_refCount - 1, o.m_weakRefCount⟩) rest).reclaims := by
          simp [runOps, hstep]
        rcases ih _ hG1 hrest with ⟨h1, h2, h3, h4, h5⟩ | ⟨o2, h1, h2, h3, h4, h5, h6, h7⟩
        · have h3' : (runOps (some ⟨o.m_ptr, o.m_refCount - 1, o.m_weakRefCount⟩)
              rest).teardowns = (if 1 ≤ o.m_refCount - 1 then 1 else 0) := h3
          have h4' : rest.count RefOp.decRef =
              rest.count RefOp.addRef + (o.m_refCount - 1) := h4
          have h5' : rest.count RefOp.decWeakRef =
              rest.count RefOp.addWeakRef + o.m_weakRefCount := h5
          left
          refine ⟨by rw [hrunS]; exact h1, by rw [hrunR]; exact h2, ?_, ?_, ?_⟩
          · rw [hrunT, h3']
            have e1 : (1 : Nat) ≤ o.m_refCount - 1 := by omega
            simp [e1, hok']
          · simp only [count_cons_refop]
            simp
            omega
          · simp only [count_cons_refop]
            simp
            omega
        · have h3' : (runOps (some ⟨o.m_ptr, o.m_refCount - 1, o.m_weakRefCount⟩)
              rest).reclaims = 0 := h3
          have h4' : (runOps (some ⟨o.m_ptr, o.m_refCount - 1, o.m_weakRefCount⟩)
              rest).teardowns =
              (if 1 ≤ o.m_refCount - 1 ∧ o2.m_refCount = 0 then 1 else 0) := h4
          have h6' : o2.m_refCount + rest.count RefOp.decRef =
              (o.m_refCount - 1) + rest.count RefOp.addRef := h6
          have h7' : o2.m_weakRefCount + rest.count RefOp.decWeakRef =
              o.m_weakRefCount + rest.count RefOp.addWeakRef := h7
          right
          refine ⟨o2, by rw [hrunS]; exact h1, h2, by rw [hrunR]; exact h3', ?_,
            fun _ => hok', ?_, ?_⟩
          · rw [hrunT, h4']
            have e1 : (1 : Nat) ≤ o.m_refCount - 1 := by omega
            by_cases hz : o2.m_refCount = 0 <;> simp [hz, e1, hok']
          · simp only [count_cons_refop]
            simp
            omega
          · simp only [count_cons_refop]
            simp
            omega
    | addWeakRef =>
      have hok' : (1 ≤ o.m_refCount ∨ 1 ≤ o.m_weakRefCount) ∧
          o.m_weakRefCount + 1 < UINT64_MOD := by simpa [okOp] using hok
      have hstep : stepOp (some o) RefOp.addWeakRef =
          ⟨some ⟨o.m_ptr, o.m_refCount, o.m_weakRefCount + 1⟩, 0, false⟩ := by
        simp [stepOp, AddWeakRef_eq o hok'.2]
      rw [hstep] at hrest
      have hG1 : GoodO ⟨o.m_ptr, o.m_refCount, o.m_weakRefCount + 1⟩ :=
        goodO_mk _ _ _ hio hbS hok'.2 (by omega)
      have hrunS : (runOps (some o) (RefOp.addWeakRef :: rest)).state =
          (runOps (some ⟨o.m_ptr, o.m_refCount, o.m_weakRefCount + 1⟩) rest).state := by
        simp [runOps, hstep]
      have hrunT : (runOps (some o) (RefOp.addWeakRef :: rest)).teardowns =
          (runOps (some ⟨o.m_ptr, o.m_refCount, o.m_weakRefCount + 1⟩) rest).teardowns := by
        simp [runOps, hstep]
      have hrunR : (runOps (some o) (RefOp.addWeakRef :: rest)).reclaims =
          (runOps (some ⟨o.m_ptr, o.m_refCount, o.m_weakRefCount + 1⟩) rest).reclaims := by
        simp [runOps, hstep]
      rcases ih _ hG1 hrest with ⟨h1, h2, h3, h4, h5⟩ | ⟨o2, h1, h2, h3, h4, h5, h6, h7⟩
      · have h3' : (runOps (some ⟨o.m_ptr, o.m_refCount, o.m_weakRefCount + 1⟩)
            rest).teardowns = (if 1 ≤ o.m_refCount then 1 else 0) := h3
        have h4' : rest.count RefOp.decRef =
            rest.count RefOp.addRef + o.m_refCount := h4
        have h5' : rest.count RefOp.decWeakRef =
            rest.count RefOp.addWeakRef + (o.m_weakRefCount + 1) := h5
        left
        refine ⟨by rw [hrunS]; exact h1, by rw [hrunR]; exact h2,
          by rw [hrunT]; exact h3', ?_, ?_⟩
        · simp only [count_cons_refop]
          simp
          omega
        · simp only [count_cons_refop]
          simp
          omega
      · have h3' : (runOps (some ⟨o.m_ptr, o.m_refCount, o.m_weakRefCount + 1⟩)
            rest).reclaims = 0 := h3
        have h4' : (runOps (some ⟨o.m_ptr, o.m_refCount, o.m_weakRefCount + 1⟩)
            rest).teardowns =
            (if 1 ≤ o.m_refCount ∧ o2.m_refCount = 0 then 1 else 0) := h4
        have h5' : 1 ≤ o2.m_refCount → 1 ≤ o.m_refCount := h5
        have h6' : o2.m_refCount + rest.count RefOp.decRef =
            o.m_refCount + rest.count RefOp.addRef := h6
        have h7' : o2.m_weakRefCount + rest.count RefOp.decWeakRef =
            (o.m_weakRefCount + 1) + rest.count RefOp.addWeakRef := h7
        right
        refine ⟨o2, by rw [hrunS]; exact h1, h2, by rw [hrunR]; exact h3',
          by rw [hrunT]; exact h4', h5', ?_, ?_⟩
        · simp only [count_cons_refop]
          simp
          omega
        · simp only [count_cons_refop]
          simp
          omega
    | decWeakRef =>
      have hok' : 1 ≤ o.m_weakRefCount := by simpa [okOp] using hok
      by_cases hLast : o.m_weakRefCount = 1 ∧ o.m_refCount = 0
      · -- the last weak reference with no strong ones: the block deletes itself
        have hp : o.m_ptr.m_ptr = none := by
          rcases hmp : o.m_ptr.m_ptr with _ | a
          · rfl
          · have : 1 ≤ o.m_refCount := hio.mp (by simp [hmp])
            omega
        have hstep : stepOp (some o) RefOp.decWeakRef = ⟨none, 0, true⟩ := by
          simp [stepOp, DecWeakRef_last o hLast.1 hLast.2 hp]
        rw [hstep] at hrest
        have hrest' : rest = [] := validFrom_none_eq rest hrest
        subst hrest'
        left
        refine ⟨?_, ?_, ?_, ?_, ?_⟩
        · simp [runOps, hstep]
        · simp [runOps, hstep]
        · simp [runOps, hstep, hLast.2]
        · simp [count_cons_refop, hLast.2]
        · simp [count_cons_refop, hLast.1]
      · -- the block stays alive
        have hNot : ¬(o.m_weakRefCount - 1 = 0 ∧ o.m_refCount = 0) := by omega
        have hstep : stepOp (some o) RefOp.decWeakRef =
            ⟨some ⟨o.m_ptr, o.m_refCount, o.m_weakRefCount - 1⟩, 0, false⟩ := by
          simp [stepOp, DecWeakRef_live o hok' hbW hNot]
        rw [hstep] at hrest
        have hG1 : GoodO ⟨o.m_ptr, o.m_refCount, o.m_weakRefCount - 1⟩ :=
          goodO_mk _ _ _ hio hbS (by omega) (by omega)
        have hrunS : (runOps (some o) (RefOp.decWeakRef :: rest)).state =
            (runOps (some ⟨o.m_ptr, o.m_refCount, o.m_weakRefCount - 1⟩) rest).state := by
          simp [runOps, hstep]
        have hrunT : (runOps (some o) (RefOp.decWeakRef :: rest)).teardowns =
            (runOps (some ⟨o.m_ptr, o.m_refCount, o.m_weakRefCount - 1⟩) rest).teardowns := by
          simp [runOps, hstep]
        have hrunR : (runOps (some o) (RefOp.decWeakRef :: rest)).reclaims =
            (runOps (some ⟨o.m_ptr, o.m_refCount, o.m_weakRefCount - 1⟩) rest).reclaims := by
          simp [runOps, hstep]
        rcases ih _ hG1 hrest with ⟨h1, h2, h3, h4, h5⟩ | ⟨o2, h1, h2, h3, h4, h5, h6, h7⟩
        · have h3' : (runOps (some ⟨o.m_ptr, o.m_refCount, o.m_weakRefCount - 1⟩)
              rest).teardowns = (if 1 ≤ o.m_refCount then 1 else 0) := h3
          have h4' : rest.count RefOp.decRef =
              rest.count RefOp.addRef + o.m_refCount := h4
          have h5' : rest.count RefOp.decWeakRef =
              rest.count RefOp.addWeakRef + (o.m_weakRefCount - 1) := h5
          left
          refine ⟨by rw [hrunS]; exact h1, by rw [hrunR]; exact h2,
            by rw [hrunT]; exact h3', ?_, ?_⟩
          · simp only [count_cons_refop]
            simp
            omega
          · simp only [count_cons_refop]
            simp
            omega
        · have h3' : (runOps (some ⟨o.m_ptr, o.m_refCount, o.m_weakRefCount - 1⟩)
              rest).reclaims = 0 := h3
          have h4' : (runOps (some ⟨o.m_ptr, o.m_refCount, o.m_weakRefCount - 1⟩)
              rest).teardowns =
              (if 1 ≤ o.m_refCount ∧ o2.m_refCount = 0 then 1 else 0) := h4
          have h5' : 1 ≤ o2.m_refCount → 1 ≤ o.m_refCount := h5
          have h6' : o2.m_refCount + rest.count RefOp.decRef =
              o.m_refCount + rest.count RefOp.addRef := h6
          have h7' : o2.m_weakRefCount + rest.count RefOp.decWeakRef =
              (o.m_weakRefCount - 1) + rest.count RefOp.addWeakRef := h7
          right
          refine ⟨o2, by rw [hrunS]; exact h1, h2, by rw [hrunR]; exact h3',
            by rw [hrunT]; exact h4', h5', ?_, ?_⟩
          · simp only [count_cons_refop]
            simp
            omega
          · simp only [count_cons_refop]
            simp
            omega

theorem cacheShrink_length_le (c : List Nat) (t : Int) (ht : 0 ≤ t) :
    ((cacheShrink c t).length : Int) ≤ t := by
  induction c with
  | nil => simpa [cacheShrink]
  | cons m rest ih =>
    simp only [cacheShrink]
    by_cases hlt : t < (((m :: rest).length : Nat) : Int)
    · rw [if_pos hlt]
      exact ih
    · rw [if_neg hlt]
      omega

set_option maxRecDepth 40000 in
/-- C4: after every single `operator delete` call on a `MemCache` with at
least one live allocation, the pool-ceiling invariant
`pool.size() ≤ sm_inUse * CACHE_RATE / 100` (with `CACHE_RATE = 50`) holds;
and in the concrete scenario that acquires 100 blocks and then releases all
100 one at a time, the invariant holds after each individual release and the
final pool size is at most 50. -/
theorem release_pool_ceiling_invariant (s : MemCache) (mem : Nat)
    (hIn : 1 ≤ s.sm_inUse) :
    ((MemCache.opDelete s mem).sm_cache.length : Int) ≤
      Int.tdiv ((MemCache.opDelete s mem).sm_inUse * CACHE_RATE) 100 ∧
    releaseRepInv 100 (acquireRep 100 emptyCache) = true ∧
    (releaseRep 100 (acquireRep 100 emptyCache)).sm_cache.length ≤ 50 := by
  refine ⟨?_, by decide, by decide⟩
  have h0 : 0 ≤ s.sm_inUse - 1 := by omega
  have htarget : 0 ≤ Int.tdiv ((s.sm_inUse - 1) * CACHE_RATE) 100 :=
    Int.tdiv_nonneg (mul_nonneg h0 (by unfold CACHE_RATE; norm_num)) (by norm_num)
  show ((cacheShrink (mem :: s.sm_cache)
      (Int.tdiv ((s.sm_inUse - 1) * CACHE_RATE) 100)).length : Int) ≤
    Int.tdiv ((s.sm_inUse - 1) * CACHE_RATE) 100
  exact cacheShrink_length_le _ _ htarget

/-- Witness for C4 at a concrete cache state. -/
theorem release_pool_ceiling_invariant_witness :
    ((MemCache.opDelete ⟨1, []⟩ 3).sm_cache.length : Int) ≤
      Int.tdiv ((MemCache.opDelete ⟨1, []⟩ 3).sm_inUse * CACHE_RATE) 100 :=
  (release_pool_ceiling_invariant ⟨1, []⟩ 3 (by decide)).1

/-- C5 counterexample: starting from an empty cache, acquire one block and
release it; the release empties the pool (`inUse` is back to 0, so the target
cache size is 0 and the eviction loop frees the just-recycled block), and the
next acquire therefore performs a fresh allocation (`some 16`) instead of
popping the cached block (`none`), contradicting the claimed steady-state
reuse. -/
theorem cycle_reuse_counterexample :
    (MemCache.opDelete (MemCache.opNew emptyCache 16 7).1
        (MemCache.opNew emptyCache 16 7).2.1).sm_cache = [] ∧
    (MemCache.opNew (MemCache.opDelete (MemCache.opNew emptyCache 16 7).1
        (MemCache.opNew emptyCache 16 7).2.1) 16 8).2.2 = some 16 ∧
    ¬((MemCache.opNew (MemCache.opDelete (MemCache.opNew emptyCache 16 7).1
        (MemCache.opNew emptyCache 16 7).2.1) 16 8).2.2 = none) := by
  refine ⟨by decide, by decide, by decide⟩

theorem cycle_step_empty (k : Nat) :
    MemCache.opDelete (MemCache.opNew emptyCache 16 k).1
      ((MemCache.opNew emptyCache 16 k).2.1) = emptyCache := by
  show MemCache.opDelete ⟨(0 : Int) + 1, []⟩ k = emptyCache
  unfold MemCache.opDelete emptyCache CACHE_RATE
  norm_num [cacheShrink]

/-- C5 amended: in the acquire-then-release cycle repeated any number of times
from an empty cache, the pool does not grow — it is empty again after every
cycle, because each release drives `inUse` back to 0 and the eviction loop
(target `0 * 50 / 100 = 0`) immediately frees the recycled block — so every
acquire (not only the first) performs a fresh allocation, and `inUse` is 0
after the final release. -/
theorem cycle_amended_no_growth :
    (∀ n, cycleRep n emptyCache = emptyCache) ∧
    (∀ k : Nat, (MemCache.opNew emptyCache 16 k).2.2 = some 16) ∧
    (cycleRep 1000 emptyCache).sm_inUse = 0 := by
  have hcyc : ∀ n, cycleRep n emptyCache = emptyCache := by
    intro n
    induction n with
    | zero => rfl
    | succ m ihm =>
      show cycleRep m (MemCache.opDelete (MemCache.opNew emptyCache 16 m).1
        ((MemCache.opNew emptyCache 16 m).2.1)) = emptyCache
      rw [cycle_step_empty]
      exact ihm
  refine ⟨hcyc, fun _ => rfl, ?_⟩
  rw [hcyc 1000]
  rfl

/-- C7: `operator new` pops and returns the most recently pushed pooled block
(the head of the model pool, with the block returned unchanged and no fresh
allocation) when the pool is non-empty, allocates a fresh block of exactly the
requested byte size when the pool is empty, and increments `sm_inUse` by
exactly one in both cases. -/
theorem acquire_spec (s : MemCache) (size fresh : Nat) :
    (MemCache.opNew s size fresh).1.sm_inUse = s.sm_inUse + 1 ∧
    (∀ b rest, s.sm_cache = b :: rest →
      (MemCache.opNew s size fresh).2.1 = b ∧
      (MemCache.opNew s size fresh).1.sm_cache = rest ∧
      (MemCache.opNew s size fresh).2.2 = none) ∧
    (s.sm_cache = [] →
      (MemCache.opNew s size fresh).2.1 = fresh ∧
      (MemCache.opNew s size fresh).1.sm_cache = [] ∧
      (MemCache.opNew s size fresh).2.2 = some size) := by
  obtain ⟨u, c⟩ := s
  cases c <;> simp [MemCache.opNew]

/-- Witness for C7: a pooled block is reused, a fresh one is allocated from an
empty pool. -/
theorem acquire_spec_witness :
    (MemCache.opNew ⟨3, [5, 9]⟩ 16 42).2.1 = 5 ∧
    (MemCache.opNew ⟨0, []⟩ 16 42).2.2 = some 16 :=
  ⟨((acquire_spec ⟨3, [5, 9]⟩ 16 42).2.1 5 [9] rfl).1,
   ((acquire_spec ⟨0, []⟩ 16 42).2.2 rfl).2.2⟩

/-- C6 (failing-input evaluation): move-assigning between two DISTINCT handles
that reference the identical ControlBlock is not a no-op.  On a block with
strong count 2 referenced by target and source, `operator=(SP&&)` — whose
guard tests only `&other != this` although its own comment says it also skips
assignment to the same internal object — decrements the strong count to 1 and
clears the source, while the claim (and the source comment) demand that no
ControlBlock state change at all. -/
theorem move_assign_same_block_decrements :
    strongAt (singletonHeap ⟨⟨some 7⟩, 2, 0⟩ 0) = 2 ∧
    (SPH.assignMove ⟨some 0⟩ ⟨some 0⟩ false (singletonHeap ⟨⟨some 7⟩, 2, 0⟩)).1 =
      ⟨some 0⟩ ∧
    (SPH.assignMove ⟨some 0⟩ ⟨some 0⟩ false (singletonHeap ⟨⟨some 7⟩, 2, 0⟩)).2.1 =
      ⟨none⟩ ∧
    (SPH.assignMove ⟨some 0⟩ ⟨some 0⟩ false
        (singletonHeap ⟨⟨some 7⟩, 2, 0⟩)).2.2.1 0 = some ⟨⟨some 7⟩, 1, 0⟩ ∧
    (SPH.assignMove ⟨some 0⟩ ⟨some 0⟩ false
        (singletonHeap ⟨⟨some 7⟩, 2, 0⟩)).2.2.2 = 0 := by
  decide

/-- C10: `operator->` is a total, defined operation at the handle level: on an
empty handle it returns `nullptr` rather than exhibiting undefined behaviour,
and on a non-empty handle referencing a live block it returns the block's
payload pointer. -/
theorem arrow_total_null_safe (h : Heap) (i : BlockId) (o : InternalObject)
    (ho : h i = some o) :
    SPH.arrow ⟨none⟩ h = none ∧ SPH.arrow ⟨some i⟩ h = o.GetPtr := by
  refine ⟨rfl, ?_⟩
  simp [SPH.arrow, ho]

/-- Witness for C10 on a one-block heap. -/
theorem arrow_total_null_safe_witness :
    SPH.arrow ⟨none⟩ (singletonHeap ⟨⟨some 5⟩, 1, 0⟩) = none ∧
    SPH.arrow ⟨some 0⟩ (singletonHeap ⟨⟨some 5⟩, 1, 0⟩) = some 5 :=
  arrow_total_null_safe (singletonHeap ⟨⟨some 5⟩, 1, 0⟩) 0 ⟨⟨some 5⟩, 1, 0⟩ rfl

theorem heapDecRef_eq (h : Heap) (i : BlockId) (o : InternalObject)
    (ho : h i = some o) :
    heapDecRef h i = (updHeap h i o.DecRef.state, o.DecRef.teardowns) := by
  unfold heapDecRef
  rw [ho]

theorem heapAddRef_eq (h : Heap) (i : BlockId) (o : InternalObject)
    (ho : h i = some o) :
    heapAddRef h i = updHeap h i o.AddRef.state := by
  unfold heapAddRef
  rw [ho]

theorem UnsafeAccess_of_some (h : Heap) (i : BlockId) (o : InternalObject)
    (ho : h i = some o) : SPH.UnsafeAccess ⟨some i⟩ h = o.GetPtr := by
  simp [SPH.UnsafeAccess, ho]

/-- C9: `Delete` on an already-empty handle is a safe no-op (handle stays
empty, heap untouched, no teardown); on a non-empty handle it decrements the
referenced block's strong count by exactly one, touches no other block, clears
the handle, and a second `Delete` afterwards changes nothing. -/
theorem delete_idempotent_safe (h : Heap) (i : BlockId) (o : InternalObject)
    (ho : h i = some o) (h1 : 1 ≤ o.m_refCount)
    (hb : o.m_refCount < UINT64_MOD) :
    SPH.Delete ⟨none⟩ h = (⟨none⟩, h, 0) ∧
    (SPH.Delete ⟨some i⟩ h).1 = ⟨none⟩ ∧
    strongAt ((SPH.Delete ⟨some i⟩ h).2.1 i) = o.m_refCount - 1 ∧
    (∀ j, j ≠ i → (SPH.Delete ⟨some i⟩ h).2.1 j = h j) ∧
    SPH.Delete (SPH.Delete ⟨some i⟩ h).1 (SPH.Delete ⟨some i⟩ h).2.1 =
      ((SPH.Delete ⟨some i⟩ h).1, (SPH.Delete ⟨some i⟩ h).2.1, 0) := by
  have hdr := heapDecRef_eq h i o ho
  have hDelH : (SPH.Delete ⟨some i⟩ h).2.1 = (heapDecRef h i).1 := rfl
  refine ⟨rfl, rfl, ?_, ?_, rfl⟩
  · rw [hDelH, hdr]
    show strongAt (updHeap h i o.DecRef.state i) = o.m_refCount - 1
    rw [show updHeap h i o.DecRef.state i = o.DecRef.state by simp [updHeap]]
    rcases Nat.lt_or_ge o.m_refCount 2 with hc1 | hc2
    · have hSeq : o.m_refCount = 1 := by omega
      have hs : sub64 o.m_refCount = 0 := by rw [hSeq]; decide
      by_cases hw : o.m_weakRefCount = 0
      · have hst : o.DecRef.state = none := by
          simp [InternalObject.DecRef, hs, hw]
        rw [hst]
        simp [strongAt, hSeq]
      · have hst : o.DecRef.state =
            some ⟨o.m_ptr.Delete.1, 0, o.m_weakRefCount⟩ := by
          simp [InternalObject.DecRef, hs, hw]
        rw [hst]
        simp [strongAt, hSeq]
    · rw [DecRef_big o hc2 hb]
      simp [strongAt]
  · intro j hj
    rw [hDelH, hdr]
    show updHeap h i o.DecRef.state j = h j
    simp [updHeap, hj]

/-- Witness for C9 on a one-block heap with strong count 2. -/
theorem delete_idempotent_safe_witness :
    strongAt ((SPH.Delete ⟨some 0⟩ (singletonHeap ⟨⟨some 5⟩, 2, 0⟩)).2.1 0) = 1 :=
  (delete_idempotent_safe (singletonHeap ⟨⟨some 5⟩, 2, 0⟩) 0 ⟨⟨some 5⟩, 2, 0⟩
    rfl (by decide) (by decide)).2.2.1

/-- C8: copying a non-empty handle yields two handles whose payload-address
comparisons (`==`, `<=`, `>=`) report them equal; releasing the copy performs
no payload teardown, restores the block to its original state (strong count
back to the positive original), and leaves the other handle non-empty and
still reaching the live payload. -/
theorem copy_equal_and_release_independent (h : Heap) (i : BlockId)
    (o : InternalObject) (a : Nat) (ho : h i = some o)
    (hp : o.m_ptr = ⟨some a⟩) (hrc : 1 ≤ o.m_refCount)
    (hb : o.m_refCount + 1 < UINT64_MOD) :
    (SPH.copy ⟨some i⟩ h).1 = ⟨some i⟩ ∧
    SPH.opEq ⟨some i⟩ (SPH.copy ⟨some i⟩ h).1 (SPH.copy ⟨some i⟩ h).2 = true ∧
    SPH.opLe ⟨some i⟩ (SPH.copy ⟨some i⟩ h).1 (SPH.copy ⟨some i⟩ h).2 = true ∧
    SPH.opGe ⟨some i⟩ (SPH.copy ⟨some i⟩ h).1 (SPH.copy ⟨some i⟩ h).2 = true ∧
    (SPH.copy ⟨some i⟩ h).2 i =
      some ⟨o.m_ptr, o.m_refCount + 1, o.m_weakRefCount⟩ ∧
    (SPH.Delete (SPH.copy ⟨some i⟩ h).1 (SPH.copy ⟨some i⟩ h).2).2.2 = 0 ∧
    (SPH.Delete (SPH.copy ⟨some i⟩ h).1 (SPH.copy ⟨some i⟩ h).2).1 = ⟨none⟩ ∧
    (SPH.Delete (SPH.copy ⟨some i⟩ h).1 (SPH.copy ⟨some i⟩ h).2).2.1 i =
      some o ∧
    SPH.IsNull ⟨some i⟩ = false ∧
    SPH.UnsafeAccess ⟨some i⟩
      ((SPH.Delete (SPH.copy ⟨some i⟩ h).1 (SPH.copy ⟨some i⟩ h).2).2.1) =
      some a := by
  have hcopy1 : (SPH.copy ⟨some i⟩ h).1 = ⟨some i⟩ := rfl
  have hARstate : o.AddRef.state =
      some ⟨o.m_ptr, o.m_refCount + 1, o.m_weakRefCount⟩ := by
    rw [AddRef_eq o hb]
  have hHeap2 : heapAddRef h i =
      updHeap h i (some ⟨o.m_ptr, o.m_refCount + 1, o.m_weakRefCount⟩) := by
    rw [heapAddRef_eq h i o ho, hARstate]
  have h2i : updHeap h i
      (some ⟨o.m_ptr, o.m_refCount + 1, o.m_weakRefCount⟩) i =
      some ⟨o.m_ptr, o.m_refCount + 1, o.m_weakRefCount⟩ := by
    simp [updHeap]
  have hDec : (⟨o.m_ptr, o.m_refCount + 1, o.m_weakRefCount⟩ :
      InternalObject).DecRef = ⟨some o, 0, false⟩ := by
    have hx := DecRef_big ⟨o.m_ptr, o.m_refCount + 1, o.m_weakRefCount⟩
      (by show 2 ≤ o.m_refCount + 1; omega)
      (by show o.m_refCount + 1 < UINT64_MOD; exact hb)
    rw [hx]
    norm_num
  have hDecState : (⟨o.m_ptr, o.m_refCount + 1, o.m_weakRefCount⟩ :
      InternalObject).DecRef.state = some o := by rw [hDec]
  have hDecTear : (⟨o.m_ptr, o.m_refCount + 1, o.m_weakRefCount⟩ :
      InternalObject).DecRef.teardowns = 0 := by rw [hDec]
  have hdr2 : heapDecRef
      (updHeap h i (some ⟨o.m_ptr, o.m_refCount + 1, o.m_weakRefCount⟩)) i =
      (updHeap (updHeap h i (some ⟨o.m_ptr, o.m_refCount + 1, o.m_weakRefCount⟩))
        i (some o), 0) := by
    rw [heapDecRef_eq
      (updHeap h i (some ⟨o.m_ptr, o.m_refCount + 1, o.m_weakRefCount⟩)) i
      ⟨o.m_ptr, o.m_refCount + 1, o.m_weakRefCount⟩ h2i, hDecState, hDecTear]
  have eT : (SPH.Delete (SPH.copy ⟨some i⟩ h).1 (SPH.copy ⟨some i⟩ h).2).2.2 =
      (heapDecRef (heapAddRef h i) i).2 := rfl
  have eH : (SPH.Delete (SPH.copy ⟨some i⟩ h).1 (SPH.copy ⟨some i⟩ h).2).2.1 =
      (heapDecRef (heapAddRef h i) i).1 := rfl
  rw [hHeap2, hdr2] at eT eH
  refine ⟨rfl, ?_, ?_, ?_, ?_, ?_, rfl, ?_, rfl, ?_⟩
  · rw [hcopy1]
    simp [SPH.opEq]
  · rw [hcopy1]
    simp [SPH.opLe]
  · rw [hcopy1]
    simp [SPH.opGe]
  · have eC : (SPH.copy ⟨some i⟩ h).2 = heapAddRef h i := rfl
    rw [eC, hHeap2]
    exact h2i
  · rw [eT]
  · rw [eH]
    show updHeap
        (updHeap h i (some ⟨o.m_ptr, o.m_refCount + 1, o.m_weakRefCount⟩)) i
        (some o) i = some o
    simp [updHeap]
  · rw [eH]
    show SPH.UnsafeAccess ⟨some i⟩
      (updHeap
        (updHeap h i (some ⟨o.m_ptr, o.m_refCount + 1, o.m_weakRefCount⟩)) i
        (some o)) = some a
    have hfinal : updHeap
        (updHeap h i (some ⟨o.m_ptr, o.m_refCount + 1, o.m_weakRefCount⟩)) i
        (some o) i = some o := by
      simp [updHeap]
    rw [UnsafeAccess_of_some _ _ _ hfinal]
    show o.m_ptr.m_ptr = some a
    rw [hp]

/-- Witness for C8 on a one-block heap. -/
theorem copy_equal_and_release_independent_witness :
    SPH.opEq ⟨some 0⟩ (SPH.copy ⟨some 0⟩ (singletonHeap ⟨⟨some 5⟩, 1, 0⟩)).1
      (SPH.copy ⟨some 0⟩ (singletonHeap ⟨⟨some 5⟩, 1, 0⟩)).2 = true ∧
    (SPH.Delete (SPH.copy ⟨some 0⟩ (singletonHeap ⟨⟨some 5⟩, 1, 0⟩)).1
      (SPH.copy ⟨some 0⟩ (singletonHeap ⟨⟨some 5⟩, 1, 0⟩)).2).2.1 0 =
      some ⟨⟨some 5⟩, 1, 0⟩ :=
  ⟨(copy_equal_and_release_independent (singletonHeap ⟨⟨some 5⟩, 1, 0⟩) 0
      ⟨⟨some 5⟩, 1, 0⟩ 5 rfl rfl (by decide) (by decide)).2.1,
   (copy_equal_and_release_independent (singletonHeap ⟨⟨some 5⟩, 1, 0⟩) 0
      ⟨⟨some 5⟩, 1, 0⟩ 5 rfl rfl (by decide) (by decide)).2.2.2.2.2.2.2.1⟩

/-- C1: for every balanced sequence of `AddRef`/`DecRef` mutations against one
ControlBlock created with strong count 1 (each mutation issued by a live
handle, one more `DecRef` than `AddRef`s), the payload teardown is invoked
exactly once over the whole run, and a step of the sequence invokes it exactly
when it is the `DecRef` that takes the strong count from 1 to 0 — no earlier
and no later step fires it. -/
theorem teardown_once_strong_balanced (p : Nat) (ops : List RefOp)
    (hS : ∀ op ∈ ops, op = RefOp.addRef ∨ op = RefOp.decRef)
    (hV : validFrom (some (InternalObject.create p)) ops = true)
    (hB : ops.count RefOp.decRef = ops.count RefOp.addRef + 1) :
    (runOps (some (InternalObject.create p)) ops).teardowns = 1 ∧
    ∀ pre op suf, ops = pre ++ op :: suf →
      ((stepOp (runOps (some (InternalObject.create p)) pre).state
          op).teardowns = 1 ↔
        (op = RefOp.decRef ∧
         strongAt (runOps (some (InternalObject.create p)) pre).state = 1)) := by
  constructor
  · rcases runOps_spec ops _ (goodO_create p) hV with
      ⟨_, _, h3, _, _⟩ | ⟨o2, _, _, _, h4, _, h6, _⟩
    · have h3' : (runOps (some (InternalObject.create p)) ops).teardowns =
          (if (1 : Nat) ≤ 1 then 1 else 0) := h3
      simpa using h3'
    · have h6' : o2.m_refCount + ops.count RefOp.decRef =
          1 + ops.count RefOp.addRef := h6
      have ho2 : o2.m_refCount = 0 := by omega
      have h4' : (runOps (some (InternalObject.create p)) ops).teardowns =
          (if (1 : Nat) ≤ 1 ∧ o2.m_refCount = 0 then 1 else 0) := h4
      rw [h4']
      simp [ho2]
  · intro pre op suf heq
    subst heq
    have hV2 := hV
    rw [validFrom_append, Bool.and_eq_true] at hV2
    obtain ⟨hVpre, hVsuf⟩ := hV2
    simp only [validFrom, Bool.and_eq_true] at hVsuf
    obtain ⟨hok, _⟩ := hVsuf
    rcases hstate : (runOps (some (InternalObject.create p)) pre).state with _ | o2
    · rw [hstate] at hok
      simp [okOp] at hok
    · rw [hstate] at hok
      rcases runOps_spec pre _ (goodO_create p) hVpre with
        ⟨h1, _, _, _, _⟩ | ⟨o2', h1, hG2, _, _, _, h6, h7⟩
      · rw [hstate] at h1
        exact absurd h1 (by simp)
      · rw [hstate] at h1
        injection h1 with he
        subst he
        obtain ⟨hio2, hbS2, hbW2, _⟩ := hG2
        have hpre_mem : ∀ op2 ∈ pre, op2 = RefOp.addRef ∨ op2 = RefOp.decRef :=
          fun op2 hm => hS op2 (List.mem_append.mpr (Or.inl hm))
        have hdw : RefOp.decWeakRef ∉ pre := by
          intro hmem
          rcases hpre_mem _ hmem with hc | hc <;> simp at hc
        have haw : RefOp.addWeakRef ∉ pre := by
          intro hmem
          rcases hpre_mem _ hmem with hc | hc <;> simp at hc
        have hcW : pre.count RefOp.decWeakRef = 0 := List.count_eq_zero.mpr hdw
        have hcW2 : pre.count RefOp.addWeakRef = 0 := List.count_eq_zero.mpr haw
        have h7' : o2.m_weakRefCount + pre.count RefOp.decWeakRef =
            0 + pre.count RefOp.addWeakRef := h7
        have hW : o2.m_weakRefCount = 0 := by omega
        have hopmem : op ∈ pre ++ op :: suf :=
          List.mem_append.mpr (Or.inr (List.mem_cons_self op suf))
        rcases hS op hopmem with hA | hD
        · subst hA
          simp [stepOp, InternalObject.AddRef, strongAt]
        · subst hD
          have hok' : 1 ≤ o2.m_refCount := by simpa [okOp] using hok
          have hstep : stepOp (some o2) RefOp.decRef = o2.DecRef := rfl
          rcases Nat.lt_or_ge o2.m_refCount 2 with hc1 | hc2
          · have hSeq : o2.m_refCount = 1 := by omega
            obtain ⟨a2, ha2⟩ := Option.isSome_iff_exists.mp (hio2.mpr hok')
            rw [hstep, DecRef_last_weakzero o2 a2 hSeq ha2 hW]
            simp [strongAt, hSeq]
          · rw [hstep, DecRef_big o2 hc2 hbS2]
            simp [strongAt]
            omega

/-- Witness for C1: one copy then two releases, teardown fires once. -/
theorem teardown_once_strong_balanced_witness :
    (runOps (some (InternalObject.create 5))
      [RefOp.addRef, RefOp.decRef, RefOp.decRef]).teardowns = 1 :=
  (teardown_once_strong_balanced 5 [RefOp.addRef, RefOp.decRef, RefOp.decRef]
    (by decide) (by decide) (by decide)).1

/-- C2: for every balanced sequence of strong and weak mutations against one
ControlBlock (each decrement issued by a live handle; both counts end at 0),
the block storage is reclaimed exactly once, never while a proper prefix of
the sequence leaves either count positive, and a step reclaims it exactly when
it is the decrement that observes both counts at 0 — whether that is the
`DecRef` from strong count 1 with weak count 0, or the `DecWeakRef` from weak
count 1 with strong count 0. -/
theorem block_reclaim_once_balanced (p : Nat) (ops : List RefOp)
    (hV : validFrom (some (InternalObject.create p)) ops = true)
    (hBs : ops.count RefOp.decRef = ops.count RefOp.addRef + 1)
    (hBw : ops.count RefOp.decWeakRef = ops.count RefOp.addWeakRef) :
    (runOps (some (InternalObject.create p)) ops).reclaims = 1 ∧
    (∀ k, k < ops.length →
      (runOps (some (InternalObject.create p)) (List.take k ops)).reclaims = 0) ∧
    ∀ pre op suf, ops = pre ++ op :: suf →
      ((stepOp (runOps (some (InternalObject.create p)) pre).state
          op).reclaimed = true ↔
        ((op = RefOp.decRef ∧
          strongAt (runOps (some (InternalObject.create p)) pre).state = 1 ∧
          weakAt (runOps (some (InternalObject.create p)) pre).state = 0) ∨
         (op = RefOp.decWeakRef ∧
          weakAt (runOps (some (InternalObject.create p)) pre).state = 1 ∧
          strongAt (runOps (some (InternalObject.create p)) pre).state = 0))) := by
  refine ⟨?_, ?_, ?_⟩
  · rcases runOps_spec ops _ (goodO_create p) hV with
      ⟨_, h2, _, _, _⟩ | ⟨o2, _, hG2, _, _, _, h6, h7⟩
    · exact h2
    · exfalso
      have h6' : o2.m_refCount + ops.count RefOp.decRef =
          1 + ops.count RefOp.addRef := h6
      have h7' : o2.m_weakRefCount + ops.count RefOp.decWeakRef =
          0 + ops.count RefOp.addWeakRef := h7
      have hsum := hG2.2.2.2
      omega
  · intro k hk
    have hV2 := hV
    rw [show ops = List.take k ops ++ List.drop k ops from
      (List.take_append_drop k ops).symm, validFrom_append,
      Bool.and_eq_true] at hV2
    obtain ⟨hVpre, hVsuf⟩ := hV2
    rcases runOps_spec (List.take k ops) _ (goodO_create p) hVpre with
      ⟨h1, _, _, _, _⟩ | ⟨o2, _, _, h3, _, _, _, _⟩
    · exfalso
      rw [h1] at hVsuf
      have hd := validFrom_none_eq _ hVsuf
      have hlen : (List.drop k ops).length = 0 := by simp [hd]
      rw [List.length_drop] at hlen
      omega
    · exact h3
  · intro pre op suf heq
    subst heq
    have hV2 := hV
    rw [validFrom_append, Bool.and_eq_true] at hV2
    obtain ⟨hVpre, hVsuf⟩ := hV2
    simp only [validFrom, Bool.and_eq_true] at hVsuf
    obtain ⟨hok, _⟩ := hVsuf
    rcases hstate : (runOps (some (InternalObject.create p)) pre).state with _ | o2
    · rw [hstate] at hok
      simp [okOp] at hok
    · rw [hstate] at hok
      rcases runOps_spec pre _ (goodO_create p) hVpre with
        ⟨h1, _, _, _, _⟩ | ⟨o2', h1, hG2, _, _, _, _, _⟩
      · rw [hstate] at h1
        exact absurd h1 (by simp)
      · rw [hstate] at h1
        injection h1 with he
        subst he
        obtain ⟨hio2, hbS2, hbW2, _⟩ := hG2
        cases op with
        | addRef =>
          simp [stepOp, InternalObject.AddRef, strongAt, weakAt]
        | addWeakRef =>
          simp [stepOp, InternalObject.AddWeakRef, strongAt, weakAt]
        | decRef =>
          have hok' : 1 ≤ o2.m_refCount := by simpa [okOp] using hok
          have hstep : stepOp (some o2) RefOp.decRef = o2.DecRef := rfl
          rcases Nat.lt_or_ge o2.m_refCount 2 with hc1 | hc2
          · have hSeq : o2.m_refCount = 1 := by omega
            obtain ⟨a2, ha2⟩ := Option.isSome_iff_exists.mp (hio2.mpr hok')
            by_cases hw : o2.m_weakRefCount = 0
            · rw [hstep, DecRef_last_weakzero o2 a2 hSeq ha2 hw]
              simp [strongAt, weakAt, hSeq, hw]
            · rw [hstep, DecRef_last_weakpos o2 a2 hSeq ha2 (by omega)]
              simp [strongAt, weakAt, hSeq]
              omega
          · rw [hstep, DecRef_big o2 hc2 hbS2]
            simp [strongAt, weakAt]
            omega
        | decWeakRef =>
          have hok' : 1 ≤ o2.m_weakRefCount := by simpa [okOp] using hok
          have hstep : stepOp (some o2) RefOp.decWeakRef = o2.DecWeakRef := rfl
          by_cases hLast : o2.m_weakRefCount = 1 ∧ o2.m_refCount = 0
          · have hp2 : o2.m_ptr.m_ptr = none := by
              rcases hmp : o2.m_ptr.m_ptr with _ | a2
              · rfl
              · have : 1 ≤ o2.m_refCount := hio2.mp (by simp [hmp])
                omega
            rw [hstep, DecWeakRef_last o2 hLast.1 hLast.2 hp2]
            simp [strongAt, weakAt, hLast.1, hLast.2]
          · rw [hstep, DecWeakRef_live o2 hok' hbW2 (by omega)]
            simp [strongAt, weakAt]
            omega

/-- Witness for C2: weak handle added, strong released (teardown), weak
dropped last (reclaims the block): exactly one reclamation. -/
theorem block_reclaim_once_balanced_witness :
    (runOps (some (InternalObject.create 5))
      [RefOp.addWeakRef, RefOp.decRef, RefOp.decWeakRef]).reclaims = 1 :=
  (block_reclaim_once_balanced 5
    [RefOp.addWeakRef, RefOp.decRef, RefOp.decWeakRef]
    (by decide) (by decide) (by decide)).1

/-- C3: once the strong count of the ControlBlock a WeakHandle references has
reached 0 in any valid mutation sequence (so the payload slot is already
cleared), `WP::GetSP` returns an empty SharedHandle and changes nothing, and
`WP::GetSP` on a weak handle with no block reference also returns an empty
SharedHandle. -/
theorem promote_empty_after_strong_zero (p : Nat) (ops : List RefOp)
    (o : InternalObject)
    (hV : validFrom (some (InternalObject.create p)) ops = true)
    (hs : (runOps (some (InternalObject.create p)) ops).state = some o)
    (h0 : o.m_refCount = 0) :
    WP_GetSP (some o) = (some o, false) ∧ WP_GetSP none = (none, false) := by
  refine ⟨?_, rfl⟩
  rcases runOps_spec ops _ (goodO_create p) hV with
    ⟨h1, _, _, _, _⟩ | ⟨o2, h1, hG2, _, _, _, _, _⟩
  · rw [h1] at hs
    exact absurd hs (by simp)
  · rw [h1] at hs
    have he : o2 = o := by injection hs
    rw [← he] at h0 ⊢
    have hptr : o2.m_ptr.m_ptr = none := by
      rcases hmp : o2.m_ptr.m_ptr with _ | a2
      · rfl
      · have : 1 ≤ o2.m_refCount := hG2.1.mp (by simp [hmp])
        omega
    simp [WP_GetSP, SP_fromInternal, InternalObject.GetPtr, UP.UnsafeAccess, hptr]

/-- Witness for C3: a weak reference outlives the payload (strong count
released to 0 while the weak count holds the block); promotion yields an empty
handle and leaves the block untouched. -/
theorem promote_empty_after_strong_zero_witness :
    WP_GetSP (some ⟨⟨none⟩, 0, 1⟩) = (some ⟨⟨none⟩, 0, 1⟩, false) :=
  (promote_empty_after_strong_zero 5 [RefOp.addWeakRef, RefOp.decRef]
    ⟨⟨none⟩, 0, 1⟩ (by decide) (by decide) rfl).1

end wbs
